import Mathlib

/-!
Verification model of the energy-collector repository
(`collector_pi3_sqlite.py` and `api_server_sqlite.py`).

Numbers are modelled as rationals (`ℚ`): every arithmetic operation the
adapters perform (division by 1000, absolute value) is exact on the inputs
the claims are about, so `ℚ` is a faithful stand-in for Python floats here.
The collection clock (`datetime.now()`, truncated to whole seconds and
rendered as `YYYY-MM-DD HH:MM:SS`) is modelled as an explicit `String`
parameter `now`.  HTTP effects are modelled by an input datatype: either a
network-level failure (any exception out of `requests.get`) or a response
with a status code and a body (for the inverter endpoint the body appears
already JSON-parsed as `Option JVal`, `none` meaning a non-JSON body).
-/

/-- JSON values, as produced by `r.json()` in the collector. -/
inductive JVal where
  | jnull
  | jbool (b : Bool)
  | jnum (q : ℚ)
  | jstr (s : String)
  | jarr (xs : List JVal)
  | jobj (fields : List (String × JVal))

/-- Dictionary lookup on a JSON object field list (Python `d[k]` / `d.get(k)`
returning the first binding of `k`). -/
def assoc : List (String × JVal) → String → Option JVal
  | [], _ => none
  | (k, v) :: r, key => if k = key then some v else assoc r key

/-- Python truthiness of a JSON-derived value (`bool(x)`). -/
def falsy : JVal → Bool
  | .jnull => true
  | .jbool b => !b
  | .jnum q => q == 0
  | .jstr s => s == ""
  | .jarr [] => true
  | .jarr (_ :: _) => false
  | .jobj [] => true
  | .jobj (_ :: _) => false

/-- Python `site.get(name)`: the bound value, or `None` when the key is
absent (JSON `null` and Python `None` coincide). -/
def dictGet (fs : List (String × JVal)) (k : String) : JVal :=
  (assoc fs k).getD .jnull

/-- Python `v or 0`: replaces any falsy value by the integer `0`. -/
def orZero (v : JVal) : JVal :=
  if falsy v then .jnum 0 else v

/-- Python `abs(v / 1000)`.  Numbers (and booleans, which Python treats as
0/1 integers) divide exactly; any other operand raises `TypeError`, which the
adapter's `except` turns into a failed fetch, modelled as `none`. -/
def divAbs1000 : JVal → Option ℚ
  | .jnum q => some (|q| / 1000)
  | .jbool b => some ((if b then (1 : ℚ) else 0) / 1000)
  | _ => none

/-- One site power field of the inverter payload:
`abs((site.get(name) or 0) / 1000)`. -/
def sitePower (sf : List (String × JVal)) (name : String) : Option ℚ :=
  divAbs1000 (orZero (dictGet sf name))

/-! ## Python string primitives

The few string operations the collector uses — `str.strip()`,
`str.replace(",", ".")` and `str.split("\n")` — are modelled directly on the
character list of the string, so that every definition evaluates inside the
kernel. -/

/-- The characters Python `str.strip()` removes (ASCII whitespace). -/
def pySpace (c : Char) : Bool :=
  c == ' ' || c == '\t' || c == '\n' || c == '\r' || c == '\x0b' || c == '\x0c'

/-- Python `s.strip()` on a character list: drop whitespace at both ends. -/
def stripChars (cs : List Char) : List Char :=
  ((cs.dropWhile pySpace).reverse.dropWhile pySpace).reverse

/-- Python `s.strip()`. -/
def pyStrip (s : String) : String := ⟨stripChars s.data⟩

/-- Python `s.replace(",", ".")`: the pattern is a single character, so the
replacement is a character map. -/
def commaToDot (cs : List Char) : List Char :=
  cs.map (fun c => if c == ',' then '.' else c)

/-- Python `s.split("\n")` on a character list; `splitNl [] = [[]]` just as
`"".split("\n") == [""]`. -/
def splitNl : List Char → List (List Char)
  | [] => [[]]
  | c :: r =>
    if c == '\n' then [] :: splitNl r
    else
      match splitNl r with
      | [] => [[c]]
      | l :: ls => (c :: l) :: ls

/-! ## Python float parsing

`pyFloat` models `float(s)` on ordinary decimal and scientific literals
(optional sign, digits, optional fractional part, optional exponent), with
surrounding whitespace stripped — the forms that occur in the telemetry
wire formats.  `none` models `float` raising `ValueError`. -/

def isDigit (c : Char) : Bool := '0' ≤ c && c ≤ '9'

def digitVal (c : Char) : ℕ := c.toNat - '0'.toNat

def digitsToNat (cs : List Char) : ℕ :=
  cs.foldl (fun n c => 10 * n + digitVal c) 0

/-- Value of a fractional digit string: `fracVal "25" = 25/100`. -/
def fracVal (cs : List Char) : ℚ :=
  (digitsToNat cs : ℚ) / (10 : ℚ) ^ cs.length

/-- Strip one optional leading sign, reporting whether it was a minus. -/
def readSign : List Char → Bool × List Char
  | '+' :: r => (false, r)
  | '-' :: r => (true, r)
  | cs => (false, cs)

def pyFloatCore (cs : List Char) : Option ℚ :=
  let (neg, cs1) := readSign cs
  let ip := cs1.takeWhile isDigit
  let r1 := cs1.dropWhile isDigit
  let (fp, r2) :=
    match r1 with
    | '.' :: r => (r.takeWhile isDigit, r.dropWhile isDigit)
    | _ => (([] : List Char), r1)
  if ip.isEmpty && fp.isEmpty then none
  else
    let mant : ℚ := (digitsToNat ip : ℚ) + fracVal fp
    let signed : ℚ := if neg then -mant else mant
    match r2 with
    | [] => some signed
    | 'e' :: r3 =>
      let (eneg, r4) := readSign r3
      let ed := r4.takeWhile isDigit
      if ed.isEmpty || !(r4.dropWhile isDigit).isEmpty then none
      else some (signed * (10 : ℚ) ^ (if eneg then -(digitsToNat ed : ℤ) else (digitsToNat ed : ℤ)))
    | 'E' :: r3 =>
      let (eneg, r4) := readSign r3
      let ed := r4.takeWhile isDigit
      if ed.isEmpty || !(r4.dropWhile isDigit).isEmpty then none
      else some (signed * (10 : ℚ) ^ (if eneg then -(digitsToNat ed : ℤ) else (digitsToNat ed : ℤ)))
    | _ => none

/-- Python `float(s)` on a string (strips surrounding whitespace itself). -/
def pyFloat (s : String) : Option ℚ :=
  pyFloatCore (stripChars s.data)

/-- `_to_float` of the collector, at its string call sites:
strip, normalise a decimal comma to a dot, map the empty string to `None`,
then parse; any parse failure is `None`. -/
def to_float (x : String) : Option ℚ :=
  let s := commaToDot (stripChars x.data)
  if s.isEmpty then none else pyFloatCore (stripChars s)

/-- Python `float(x)` applied to the raw SOC value (the collector's
`soc = float(soc)` inside its own try/except): numbers pass through, strings
are parsed, booleans coerce to 0/1, anything else raises and is caught,
yielding `None`. -/
def floatCast : JVal → Option ℚ
  | .jnum q => some q
  | .jstr s => pyFloat s
  | .jbool b => some (if b then 1 else 0)
  | _ => none

/-! ## Inverter adapter (`fetch_fronius`) -/

/-- Outcome of `requests.get` on the inverter endpoint: a network-level
exception, or a response with an HTTP status and body; the body is carried
already JSON-decoded, `none` standing for a non-JSON body
(`r.json()` raising). -/
inductive FrInput where
  | netErr
  | resp (status : ℕ) (json : Option JVal)

structure FroniusRow where
  ts : String
  pv_kw : ℚ
  grid_kw : ℚ
  battery_kw : ℚ
  load_kw : ℚ
  soc : Option ℚ
deriving DecidableEq, Repr

/-- First value of a JSON object, in field order:
`next(iter(inverters.values()), None)`. -/
def firstVal : List (String × JVal) → Option JVal
  | [] => none
  | (_, v) :: _ => some v

/-- The raw SOC value `inv1.get("SOC")` from the `Inverters` object:
requires a non-empty dict, picks `inverters.get("1") or` first value, and
reads `SOC` if that is itself a dict. -/
def socRaw (inverters : JVal) : Option JVal :=
  match inverters with
  | .jobj [] => none
  | .jobj fs =>
    let inv1 : Option JVal :=
      match assoc fs "1" with
      | some v => if falsy v then firstVal fs else some v
      | none => firstVal fs
    match inv1 with
    | some (.jobj ifs) => assoc ifs "SOC"
    | _ => none
  | _ => none

/-- The SOC field of the reading: the raw value, `None` when missing or JSON
null, cast to float with failures swallowed. -/
def socOf (inverters : JVal) : Option ℚ :=
  match socRaw inverters with
  | none => none
  | some .jnull => none
  | some v => floatCast v

/-- Assemble the reading from the four power computations: if any of them
raised (`none`), the whole fetch fails; otherwise all four kW fields are
populated and only `soc` stays optional. -/
def combinePowers (now : String) (soc : Option ℚ)
    (pv gr ba lo : Option ℚ) : Option FroniusRow :=
  match pv, gr, ba, lo with
  | some pv, some gr, some ba, some lo =>
    some { ts := now, pv_kw := pv, grid_kw := gr,
           battery_kw := ba, load_kw := lo, soc := soc }
  | _, _, _, _ => none

/-- `fetch_fronius`: validate status and JSON shape, extract the four site
power values in kW (absolute value of watts / 1000) and the optional SOC,
stamping the collection time `now`; every exception path is `none`. -/
def fetchFronius (now : String) (i : FrInput) : Option FroniusRow :=
  match i with
  | .netErr => none
  | .resp status json =>
    if 400 ≤ status ∧ status < 600 then none
    else
      match json with
      | none => none
      | some data =>
        match data with
        | .jobj rootf =>
          match assoc rootf "Body" with
          | some (.jobj bf) =>
            match assoc bf "Data" with
            | some (.jobj df) =>
              match assoc df "Site" with
              | some (.jobj sf) =>
                let inverters := (assoc df "Inverters").getD (.jobj [])
                combinePowers now (socOf inverters)
                  (sitePower sf "P_PV") (sitePower sf "P_Grid")
                  (sitePower sf "P_Akku") (sitePower sf "P_Load")
              | _ => none
            | _ => none
          | _ => none
        | _ => none

/-- A success response whose JSON body carries just a site object `sf`
(no `Inverters` key): the usual well-formed shape for power-only tests. -/
def mkSiteInput (sf : List (String × JVal)) : FrInput :=
  .resp 200 (some (.jobj [("Body", .jobj [("Data", .jobj [("Site", .jobj sf)])])]))

/-- A success response with a site object `sf` and an inverter object
carrying `"1" -> {SOC: soc}`. -/
def mkSiteInvInput (sf : List (String × JVal)) (soc : JVal) : FrInput :=
  .resp 200 (some (.jobj [("Body", .jobj [("Data", .jobj
    [("Site", .jobj sf),
     ("Inverters", .jobj [("1", .jobj [("SOC", soc)])])])])]))

/-! ## Heating adapter (`fetch_bmk`) -/

/-- Outcome of `requests.get` on the heating endpoint: a network-level
exception, or a response with an HTTP status and a plain-text body. -/
inductive BmkInput where
  | netErr
  | resp (status : ℕ) (text : String)

structure BmkRow where
  ts : String
  boiler_temp : Option ℚ
  outside_temp : Option ℚ
  buffer_top : Option ℚ
  buffer_mid : Option ℚ
  buffer_bottom : Option ℚ
  hot_water : Option ℚ
deriving DecidableEq, Repr

/-- The non-blank stripped lines of the heating response body:
`[line.strip() for line in r.text.split("\n") if line.strip()]`. -/
def bmkValues (text : String) : List String :=
  (((splitNl text.data).map stripChars).filter (fun cs => !cs.isEmpty)).map
    (fun cs => (⟨cs⟩ : String))

/-- `fetch_bmk`: validate status, require at least 13 non-blank lines, then
map fixed positional indices to named fields through `to_float`; every
exception path and the short-response path is `none`. -/
def fetchBmk (now : String) (i : BmkInput) : Option BmkRow :=
  match i with
  | .netErr => none
  | .resp status text =>
    if 400 ≤ status ∧ status < 600 then none
    else
      let values := bmkValues text
      if values.length ≤ 12 then none
      else some {
        ts := now
        boiler_temp := to_float (values.getD 1 "")
        outside_temp := to_float (values.getD 2 "")
        buffer_top := to_float (values.getD 4 "")
        buffer_mid := to_float (values.getD 5 "")
        buffer_bottom := to_float (values.getD 6 "")
        hot_water := to_float (values.getD 12 "") }

/-! ## Store

Both SQLite tables (`fronius`, `bmk`) have the shape: `ts TEXT PRIMARY KEY`
plus REAL payload columns.  A table state is a list of rows; queries never
rely on storage order (they always sort), so the list order is irrelevant.
The timestamp key is the `ts` field of a row, extracted by a `key` function
so the model covers both tables at once.  SQLite compares TEXT columns
byte-wise, which on the ASCII timestamps coincides with the lexicographic
`String` order used here. -/

/-- `INSERT OR REPLACE` keyed on `ts`: any existing row with the same key is
removed and the new row is stored. -/
def upsertRow {α : Type} (key : α → String) (t : List α) (r : α) : List α :=
  (t.filter (fun x => key x != key r)) ++ [r]

/-- The data effect of one worker cycle: `if row: insert(row)` — a fetched
reading is upserted, a failed fetch leaves the table unchanged. -/
def cycleEffect {α : Type} (key : α → String) (t : List α) (fetched : Option α) :
    List α :=
  match fetched with
  | some r => upsertRow key t r
  | none => t

/-- The limit guard of `_query_rows`: `max(1, min(int(limit), 200000))`. -/
def clampLimit (l : ℤ) : ℕ := (max 1 (min l 200000)).toNat

/-- Lexicographic order on character lists: SQLite compares TEXT values
byte-wise (BINARY collation), and on UTF-8 encodings the byte order agrees
with the codepoint-lexicographic order modelled here. -/
def lexLe : List Char → List Char → Bool
  | [], _ => true
  | _ :: _, [] => false
  | a :: as, b :: bs => if a < b then true else if a = b then lexLe as bs else false

/-- SQLite TEXT comparison of two timestamp strings. -/
def strLe (s t : String) : Bool := lexLe s.data t.data

/-- The WHERE clause of `_query_rows`: both bounds inclusive, each optional. -/
def inWindow {α : Type} (key : α → String) (os ou : Option String) (x : α) : Bool :=
  match os, ou with
  | some s, some u => strLe s (key x) && strLe (key x) u
  | some s, none => strLe s (key x)
  | none, some u => strLe (key x) u
  | none, none => true

/-- `ORDER BY ts ASC` as a relation on rows. -/
def tsLE {α : Type} (key : α → String) (a b : α) : Prop :=
  strLe (key a) (key b) = true

/-- `ORDER BY ts DESC` as a relation on rows. -/
def tsGE {α : Type} (key : α → String) (a b : α) : Prop :=
  strLe (key b) (key a) = true

instance {α : Type} (key : α → String) : DecidableRel (tsLE key) :=
  fun a b => inferInstanceAs (Decidable (strLe (key a) (key b) = true))

instance {α : Type} (key : α → String) : DecidableRel (tsGE key) :=
  fun a b => inferInstanceAs (Decidable (strLe (key b) (key a) = true))

/-- `_query_rows`: filter by the optional window, sort ascending by
timestamp, truncate to the clamped limit. -/
def queryRows {α : Type} (key : α → String) (t : List α) (os ou : Option String)
    (limit : ℤ) : List α :=
  (List.insertionSort (tsLE key) (t.filter (inWindow key os ou))).take
    (clampLimit limit)

/-- `_query_latest`: `SELECT * ... ORDER BY ts DESC LIMIT 1`, `none` when the
table is empty. -/
def queryLatest {α : Type} (key : α → String) (t : List α) : Option α :=
  (List.insertionSort (tsGE key) t).head?

/-- The `/api/latest` endpoint body: the latest row of each table. -/
def apiLatest (tf : List FroniusRow) (tb : List BmkRow) :
    Option FroniusRow × Option BmkRow :=
  (queryLatest FroniusRow.ts tf, queryLatest BmkRow.ts tb)

/-! ## Scheduler / worker loop

`PeriodicWorker.run` keeps a monotonic deadline `next_t`: when the loop wakes
early it waits out the remainder, otherwise it runs one fetch/insert cycle
and advances `next_t` by the fixed interval.  The model tracks the monotonic
clock and the deadline as rationals; one cycle is summarised by its
processing duration.  It describes the loop between the start of `run` and
the stop request (the stop event never fires inside the modelled cycles, and
`stop_event.wait(x)` is assumed to elapse exactly `x`). -/

structure WorkerState where
  now : ℚ
  nextT : ℚ
deriving DecidableEq, Repr

/-- The moment the cycle body actually starts: immediately if the deadline
has passed, otherwise after waiting until `next_t`. -/
def fireTime (s : WorkerState) : ℚ := max s.now s.nextT

/-- One loop iteration that performs a cycle of duration `d`: run the body at
`fireTime`, then `next_t += interval`. -/
def runCycle (interval d : ℚ) (s : WorkerState) : WorkerState :=
  { now := fireTime s + d, nextT := s.nextT + interval }

/-- Iterate the worker over a list of cycle durations. -/
def runCycles (interval : ℚ) (s : WorkerState) : List ℚ → WorkerState
  | [] => s
  | d :: ds => runCycles interval (runCycle interval d s) ds

/-- `run` starts with `next_t = time.monotonic()`: clock and deadline equal. -/
def initState (t0 : ℚ) : WorkerState := ⟨t0, t0⟩

/-- The moments at which successive cycle bodies start. -/
def fireTimes (interval : ℚ) (s : WorkerState) : List ℚ → List ℚ
  | [] => []
  | d :: ds => fireTime s :: fireTimes interval (runCycle interval d s) ds

/-! ## Main process shutdown sequence

`main()` connects and initialises the store, starts both daemon workers,
sleeps in 0.5 s steps until the stop event is set, then closes the store
connection.  Its control flow is modelled as the ordered list of
process-level actions it performs. -/

inductive MainAction where
  | initStore
  | startWorker (name : String)
  | waitForStop
  | joinWorker (name : String)
  | closeStore
deriving DecidableEq, Repr

/-- The ordered actions of `main()` from startup to exit. -/
def mainActions : List MainAction :=
  [.initStore, .startWorker "fronius", .startWorker "bmk", .waitForStop,
   .closeStore]

/-- Whether an action is a join on a worker thread. -/
def isJoin : MainAction → Bool
  | .joinWorker _ => true
  | _ => false

/-! ## General lemmas about the model -/

theorem lexLe_total : ∀ as bs : List Char, lexLe as bs = true ∨ lexLe bs as = true
  | [], _ => Or.inl rfl
  | _ :: _, [] => Or.inr rfl
  | a :: as, b :: bs => by
    rcases lt_trichotomy a b with h | h | h
    · left; simp [lexLe, h]
    · subst h
      rcases lexLe_total as bs with ih | ih <;> [left; right] <;>
        simp [lexLe, ih]
    · right; simp [lexLe, h]

theorem lexLe_trans : ∀ as bs cs : List Char,
    lexLe as bs = true → lexLe bs cs = true → lexLe as cs = true
  | [], _, _ => fun _ _ => rfl
  | _ :: _, [], _ => fun h _ => by simp [lexLe] at h
  | _ :: _, _ :: _, [] => fun _ h => by simp [lexLe] at h
  | a :: as, b :: bs, c :: cs => by
    intro h1 h2
    simp only [lexLe] at h1 h2 ⊢
    split at h1
    · rename_i hab
      split at h2
      · rename_i hbc; simp [lt_trans hab hbc]
      · split at h2
        · rename_i hbc; subst hbc; simp [hab]
        · exact absurd h2 (by simp)
    · split at h1
      · rename_i hab; subst hab
        split at h2
        · rename_i hbc; simp [hbc]
        · split at h2
          · rename_i hbc; subst hbc
            simp only [if_pos rfl]
            split
            · rfl
            · exact lexLe_trans as bs cs h1 h2
          · exact absurd h2 (by simp)
      · exact absurd h1 (by simp)

instance {α : Type} (key : α → String) : IsTotal α (tsLE key) :=
  ⟨fun a b => lexLe_total (key a).data (key b).data⟩

instance {α : Type} (key : α → String) : IsTrans α (tsLE key) :=
  ⟨fun _ _ _ hab hbc => lexLe_trans _ _ _ hab hbc⟩

instance {α : Type} (key : α → String) : IsTotal α (tsGE key) :=
  ⟨fun a b => lexLe_total (key b).data (key a).data⟩

instance {α : Type} (key : α → String) : IsTrans α (tsGE key) :=
  ⟨fun _ _ _ hab hbc => lexLe_trans _ _ _ hbc hab⟩

theorem sitePower_num (sf : List (String × JVal)) (name : String) (q : ℚ)
    (h : assoc sf name = some (.jnum q)) :
    sitePower sf name = some (|q| / 1000) := by
  unfold sitePower dictGet
  rw [h]
  by_cases h0 : q = 0
  · subst h0; simp [orZero, falsy, divAbs1000]
  · simp [orZero, falsy, divAbs1000, h0]

theorem sitePower_missing (sf : List (String × JVal)) (name : String)
    (h : assoc sf name = none) :
    sitePower sf name = some 0 := by
  simp [sitePower, dictGet, h, orZero, falsy, divAbs1000]

theorem sitePower_null (sf : List (String × JVal)) (name : String)
    (h : assoc sf name = some .jnull) :
    sitePower sf name = some 0 := by
  simp [sitePower, dictGet, h, orZero, falsy, divAbs1000]

theorem sitePower_str (sf : List (String × JVal)) (name : String) (s : String)
    (hs : s ≠ "") (h : assoc sf name = some (.jstr s)) :
    sitePower sf name = none := by
  simp [sitePower, dictGet, h, orZero, falsy, divAbs1000, hs]

theorem sitePower_emptyStr (sf : List (String × JVal)) (name : String)
    (h : assoc sf name = some (.jstr "")) :
    sitePower sf name = some 0 := by
  simp [sitePower, dictGet, h, orZero, falsy, divAbs1000]

theorem sitePower_nonneg (sf : List (String × JVal)) (name : String) (q : ℚ)
    (h : sitePower sf name = some q) : 0 ≤ q := by
  unfold sitePower at h
  cases hv : orZero (dictGet sf name) with
  | jnull => rw [hv] at h; exact Option.noConfusion h
  | jbool b =>
    rw [hv] at h
    have hq : ((if b then (1 : ℚ) else 0) / 1000) = q :=
      Option.some_injective _ h
    rw [← hq]
    cases b
    · norm_num
    · norm_num
  | jnum q0 =>
    rw [hv] at h
    have hq : (|q0| / 1000) = q := Option.some_injective _ h
    rw [← hq]
    positivity
  | jstr s => rw [hv] at h; exact Option.noConfusion h
  | jarr xs => rw [hv] at h; exact Option.noConfusion h
  | jobj fs => rw [hv] at h; exact Option.noConfusion h

theorem combinePowers_eq_some (now : String) (soc : Option ℚ)
    (pv gr ba lo : Option ℚ) (row : FroniusRow)
    (h : combinePowers now soc pv gr ba lo = some row) :
    ∃ a b c d, pv = some a ∧ gr = some b ∧ ba = some c ∧ lo = some d ∧
      row = ⟨now, a, b, c, d, soc⟩ := by
  unfold combinePowers at h
  split at h
  · rename_i a b c d
    exact ⟨a, b, c, d, rfl, rfl, rfl, rfl, (Option.some_injective _ h).symm⟩
  · exact absurd h (by simp)

theorem combinePowers_none (now : String) (soc : Option ℚ)
    (pv gr ak lo : Option ℚ)
    (h : pv = none ∨ gr = none ∨ ak = none ∨ lo = none) :
    combinePowers now soc pv gr ak lo = none := by
  rcases pv with _ | a
  · rfl
  · rcases gr with _ | b
    · rfl
    · rcases ak with _ | c
      · rfl
      · rcases lo with _ | d
        · rfl
        · simp at h

theorem fetchFronius_mkSiteInput (now : String) (sf : List (String × JVal)) :
    fetchFronius now (mkSiteInput sf)
      = combinePowers now none
          (sitePower sf "P_PV") (sitePower sf "P_Grid")
          (sitePower sf "P_Akku") (sitePower sf "P_Load") := by
  simp +decide [fetchFronius, mkSiteInput, assoc, socOf, socRaw]

theorem filter_upsert_bne {α : Type} (key : α → String) (t : List α) (r r0 : α)
    (h : key r0 = key r) :
    (upsertRow key t r0).filter (fun x => key x != key r)
      = t.filter (fun x => key x != key r) := by
  simp only [upsertRow, List.filter_append, List.filter_filter, h]
  have hfun : (fun x => (key x != key r) && (key x != key r)) =
      (fun x => key x != key r) := by
    funext x; exact Bool.and_self _
  simp [hfun, h]

theorem runCycles_nextT (interval : ℚ) :
    ∀ (ds : List ℚ) (s : WorkerState),
      (runCycles interval s ds).nextT = s.nextT + ds.length * interval := by
  intro ds
  induction ds with
  | nil => intro s; simp [runCycles]
  | cons d ds ih =>
    intro s
    rw [runCycles, ih]
    simp [runCycle]
    ring

theorem fireTimes_regular (interval : ℚ) :
    ∀ (ds : List ℚ) (s : WorkerState), s.now ≤ s.nextT →
      (∀ d ∈ ds, 0 ≤ d ∧ d ≤ interval) →
      fireTimes interval s ds
        = (List.range ds.length).map (fun k : ℕ => s.nextT + (k : ℚ) * interval) := by
  intro ds
  induction ds with
  | nil => intro s _ _; simp [fireTimes]
  | cons d ds ih =>
    intro s h hd
    have hf : fireTime s = s.nextT := max_eq_right h
    have hd0 := hd d (List.mem_cons_self d ds)
    have hnext : (runCycle interval d s).nextT = s.nextT + interval := rfl
    have hnow : (runCycle interval d s).now ≤ (runCycle interval d s).nextT := by
      simp only [runCycle, hf]
      linarith [hd0.2]
    rw [fireTimes, hf,
      ih (runCycle interval d s) hnow (fun x hx => hd x (List.mem_cons_of_mem _ hx))]
    rw [List.length_cons, List.range_succ_eq_map, List.map_cons, List.map_map]
    rw [hnext]
    congr 1
    · push_cast; ring
    · refine List.map_congr_left ?_
      intro k _
      simp only [Function.comp]
      push_cast
      ring

/-! ## Claims -/

/-- C2: for any row `r` with timestamp `key r`, upserting `r` twice leaves the
table with exactly one row at that key, carrying exactly the fields of `r`
(first and second conjunct), and a second upsert at the same key overwrites
every non-key field of the earlier row (third conjunct). -/
theorem upsert_idempotent_overwrites {α : Type} (key : α → String)
    (t : List α) (r : α) :
    upsertRow key (upsertRow key t r) r = upsertRow key t r
    ∧ (upsertRow key t r).filter (fun x => key x == key r) = [r]
    ∧ ∀ r0 : α, key r0 = key r →
        upsertRow key (upsertRow key t r0) r = upsertRow key t r := by
  refine ⟨?_, ?_, ?_⟩
  · show (upsertRow key t r).filter (fun x => key x != key r) ++ [r] = _
    rw [filter_upsert_bne key t r r rfl]
    rfl
  · simp only [upsertRow, List.filter_append, List.filter_filter]
    have hfun : (fun x => (key x == key r) && (key x != key r)) =
        (fun _ => false) := by
      funext x
      cases hx : key x == key r <;> simp [bne, hx]
    simp [hfun]
  · intro r0 h0
    show (upsertRow key t r0).filter (fun x => key x != key r) ++ [r] = _
    rw [filter_upsert_bne key t r r0 h0]
    rfl

/-- C2 witness: a concrete double upsert at the same timestamp with changed
payload fields keeps exactly the overwriting row. -/
theorem upsert_idempotent_overwrites_check :
    upsertRow FroniusRow.ts
        (upsertRow FroniusRow.ts [] ⟨"2024-01-01 00:00:00", 9, 9, 9, 9, none⟩)
        ⟨"2024-01-01 00:00:00", 1, 2, 3, 4, some 50⟩
      = upsertRow FroniusRow.ts [] ⟨"2024-01-01 00:00:00", 1, 2, 3, 4, some 50⟩ :=
  (upsert_idempotent_overwrites FroniusRow.ts []
      ⟨"2024-01-01 00:00:00", 1, 2, 3, 4, some 50⟩).2.2
    ⟨"2024-01-01 00:00:00", 9, 9, 9, 9, none⟩ rfl

/-- C3 counterexample: the claim says `main()` joins both worker loops before
closing the store; in fact the shutdown sequence closes the store while
containing no join action at all. -/
theorem main_shutdown_no_join :
    mainActions.countP isJoin = 0 ∧ MainAction.closeStore ∈ mainActions := by
  decide

/-- C3 amended: on receipt of the stop signal the main process closes the
store connection directly, without joining the (daemon) workers: the action
sequence contains no join, and the close happens after the stop wait. -/
theorem main_shutdown_close_after_stop :
    mainActions.countP isJoin = 0
    ∧ MainAction.closeStore ∈ mainActions
    ∧ List.indexOf MainAction.waitForStop mainActions
        < List.indexOf MainAction.closeStore mainActions := by
  decide

/-- C6: a worker whose cycles each take between `0` and `interval` fires at
exactly `t0, t0+I, …, t0+(N-1)·I`; the deadline accumulates to `t0 + N·I`
regardless of the durations, and whenever a cycle overruns its deadline
(`nextT ≤ now`) the next body starts immediately at `now`. -/
theorem worker_fire_times (interval t0 : ℚ) (ds : List ℚ)
    (hds : ∀ d ∈ ds, 0 ≤ d ∧ d ≤ interval) :
    fireTimes interval (initState t0) ds
        = (List.range ds.length).map (fun k : ℕ => t0 + (k : ℚ) * interval)
    ∧ (runCycles interval (initState t0) ds).nextT = t0 + ds.length * interval
    ∧ (∀ s : WorkerState, s.nextT ≤ s.now → fireTime s = s.now) :=
  ⟨fireTimes_regular interval ds (initState t0) le_rfl hds,
   runCycles_nextT interval ds (initState t0),
   fun _ h => max_eq_left h⟩

/-- C6 witness: interval 2 starting at 5, with one cycle taking the full
interval, still fires at 5, 7, 9 and leaves the deadline at 11. -/
theorem worker_fire_times_check :
    fireTimes 2 (initState 5) [1, 2, 0] = [5, 7, 9]
    ∧ (runCycles 2 (initState 5) [1, 2, 0]).nextT = 11 := by
  have h := worker_fire_times 2 5 [1, 2, 0] ?_
  · constructor
    · rw [h.1]; norm_num [List.range_succ]
    · rw [h.2.1]; norm_num
  · intro d hd
    fin_cases hd <;> norm_num

theorem lexLe_refl (as : List Char) : lexLe as as = true :=
  (lexLe_total as as).elim id id

theorem clampLimit_of_one_le {L : ℤ} (h : 1 ≤ L) :
    clampLimit L = min L.toNat 200000 := by
  unfold clampLimit
  omega

/-- C9: on every table state, the latest query returns `none` exactly on the
empty table, and otherwise a member row whose timestamp bounds every row of
the table; when timestamps are unique (the PRIMARY KEY invariant) that row is
the single maximal one.  The `/api/latest` endpoint pairs the two per-table
results. -/
theorem queryLatest_max {α : Type} (key : α → String) (t : List α) :
    (queryLatest key t = none ↔ t = [])
    ∧ (∀ r, queryLatest key t = some r →
        r ∈ t ∧ (∀ x ∈ t, strLe (key x) (key r) = true)
        ∧ ((t.map key).Nodup → ∀ x ∈ t, key x = key r → x = r))
    ∧ (∀ tf tb, apiLatest tf tb
        = (queryLatest FroniusRow.ts tf, queryLatest BmkRow.ts tb)) := by
  have hp := List.perm_insertionSort (tsGE key) t
  have hs := List.sorted_insertionSort (tsGE key) t
  refine ⟨?_, ?_, fun _ _ => rfl⟩
  · unfold queryLatest
    rw [List.head?_eq_none_iff]
    constructor
    · intro hnil
      rw [hnil] at hp
      exact hp.symm.eq_nil
    · intro ht
      subst ht
      rfl
  · intro r hr
    unfold queryLatest at hr
    obtain ⟨rest, hrest⟩ : ∃ rest,
        List.insertionSort (tsGE key) t = r :: rest := by
      cases hl : List.insertionSort (tsGE key) t with
      | nil => rw [hl] at hr; simp at hr
      | cons a m =>
        rw [hl] at hr
        simp only [List.head?_cons, Option.some_inj] at hr
        exact ⟨m, by rw [hr]⟩
    have hmem : r ∈ t := hp.subset (hrest ▸ List.mem_cons_self r rest)
    refine ⟨hmem, ?_, ?_⟩
    · intro x hx
      have hx' : x ∈ r :: rest := by
        rw [← hrest]
        exact hp.mem_iff.mpr hx
      rcases List.mem_cons.mp hx' with h1 | h1
      · subst h1
        exact lexLe_refl _
      · exact (List.sorted_cons.mp (hrest ▸ hs)).1 x h1
    · intro hnd x hx hkey
      exact List.inj_on_of_nodup_map hnd hx hmem hkey

/-- C9 witness: on a concrete two-row table the latest row is a member and
bounds both timestamps. -/
theorem queryLatest_max_check :
    (⟨"2024-01-02 00:00:00", 2, 2, 2, 2, none⟩ : FroniusRow) ∈
        ([⟨"2024-01-01 00:00:00", 1, 1, 1, 1, none⟩,
          ⟨"2024-01-02 00:00:00", 2, 2, 2, 2, none⟩] : List FroniusRow)
    ∧ ∀ x ∈ ([⟨"2024-01-01 00:00:00", 1, 1, 1, 1, none⟩,
          ⟨"2024-01-02 00:00:00", 2, 2, 2, 2, none⟩] : List FroniusRow),
        strLe x.ts "2024-01-02 00:00:00" = true := by
  have h := (queryLatest_max FroniusRow.ts
      [⟨"2024-01-01 00:00:00", 1, 1, 1, 1, none⟩,
       ⟨"2024-01-02 00:00:00", 2, 2, 2, 2, none⟩]).2.1
    ⟨"2024-01-02 00:00:00", 2, 2, 2, 2, none⟩ (by decide)
  exact ⟨h.1, h.2.1⟩

/-- C4 counterexample: the claim promises at most `min(L, 200000)` rows for
every requested limit; with `limit = 0` the clamp `max(1, min(L, 200000))`
still returns one row. -/
theorem query_limit_zero_returns_row :
    (queryRows FroniusRow.ts
        [⟨"2024-01-01 00:00:00", 1, 1, 1, 1, none⟩]
        (some "2024-01-01 00:00:00") (some "2024-01-01 00:00:00") 0).length = 1
    ∧ min (0 : ℤ).toNat 200000 = 0 := by
  constructor
  · decide
  · decide

/-- C4 amended: for every table state, bounds, and requested limit `L ≥ 1`
(the code clamps the limit to `max(1, min(L, 200000))`, so `L < 1` behaves
like `L = 1`), the range query returns only rows of the table inside the
inclusive window, sorted ascending by timestamp, at most `min(L, 200000)` of
them — in particular at most 200000 for `L = 10000000` — and it returns
every in-window row whenever the window population fits the clamped limit. -/
theorem queryRows_range {α : Type} (key : α → String) (t : List α)
    (s u : String) (L : ℤ) (hL : 1 ≤ L) :
    (∀ x ∈ queryRows key t (some s) (some u) L,
        x ∈ t ∧ strLe s (key x) = true ∧ strLe (key x) u = true)
    ∧ (queryRows key t (some s) (some u) L).Sorted (tsLE key)
    ∧ (queryRows key t (some s) (some u) L).length ≤ min L.toNat 200000
    ∧ (∀ x ∈ t, strLe s (key x) = true → strLe (key x) u = true →
        (t.filter (inWindow key (some s) (some u))).length ≤ min L.toNat 200000 →
        x ∈ queryRows key t (some s) (some u) L) := by
  have hcl : clampLimit L = min L.toNat 200000 := clampLimit_of_one_le hL
  refine ⟨?_, ?_, ?_, ?_⟩
  · intro x hx
    have hx1 : x ∈ List.insertionSort (tsLE key)
        (t.filter (inWindow key (some s) (some u))) :=
      List.mem_of_mem_take hx
    have hx2 : x ∈ t.filter (inWindow key (some s) (some u)) := by
      simpa using hx1
    obtain ⟨hxt, hw⟩ := List.mem_filter.mp hx2
    simp only [inWindow, Bool.and_eq_true] at hw
    exact ⟨hxt, hw.1, hw.2⟩
  · exact (List.sorted_insertionSort (tsLE key) _).sublist
      (List.take_sublist _ _)
  · unfold queryRows
    rw [List.length_take, hcl]
    exact min_le_left _ _
  · intro x hxt hs hu hlen
    have hxf : x ∈ t.filter (inWindow key (some s) (some u)) :=
      List.mem_filter.mpr ⟨hxt, by simp [inWindow, hs, hu]⟩
    have hlen2 : (List.insertionSort (tsLE key)
        (t.filter (inWindow key (some s) (some u)))).length ≤ clampLimit L := by
      rw [List.length_insertionSort, hcl]
      exact hlen
    unfold queryRows
    rw [List.take_of_length_le hlen2]
    simpa using hxf

/-- C4 witness: a hard-cap request `limit = 10000000` on a concrete two-row
table returns the one in-window row and at most `min(10000000, 200000)` rows. -/
theorem queryRows_range_check :
    (⟨"2024-01-02 00:00:00", 2, 2, 2, 2, none⟩ : FroniusRow) ∈
        queryRows FroniusRow.ts
          [⟨"2024-01-01 00:00:00", 1, 1, 1, 1, none⟩,
           ⟨"2024-01-02 00:00:00", 2, 2, 2, 2, none⟩]
          (some "2024-01-01 12:00:00") (some "2024-12-31 00:00:00") 10000000
    ∧ (queryRows FroniusRow.ts
          [⟨"2024-01-01 00:00:00", 1, 1, 1, 1, none⟩,
           ⟨"2024-01-02 00:00:00", 2, 2, 2, 2, none⟩]
          (some "2024-01-01 12:00:00") (some "2024-12-31 00:00:00")
          10000000).length ≤ min (10000000 : ℤ).toNat 200000 := by
  have h := queryRows_range FroniusRow.ts
      [⟨"2024-01-01 00:00:00", 1, 1, 1, 1, none⟩,
       ⟨"2024-01-02 00:00:00", 2, 2, 2, 2, none⟩]
      "2024-01-01 12:00:00" "2024-12-31 00:00:00" 10000000 (by norm_num)
  exact ⟨h.2.2.2 ⟨"2024-01-02 00:00:00", 2, 2, 2, 2, none⟩ (by decide)
      (by decide) (by decide) (by decide), h.2.2.1⟩

theorem fetchFronius_mkSiteInvInput (now : String) (sf : List (String × JVal))
    (soc : JVal) :
    fetchFronius now (mkSiteInvInput sf soc)
      = combinePowers now (socOf (.jobj [("1", .jobj [("SOC", soc)])]))
          (sitePower sf "P_PV") (sitePower sf "P_Grid")
          (sitePower sf "P_Akku") (sitePower sf "P_Load") := by
  simp +decide [fetchFronius, mkSiteInvInput, assoc]

/-- C1 counterexample: with the site object present but `P_PV` bound to a
non-numeric string, the whole fetch returns `None` (the claim asserts it
returns a Reading with a null `pv_kw`); and with `P_PV` absent, the returned
Reading carries `pv_kw = 0.0`, not null. -/
theorem fronius_nonnumeric_power_fails :
    fetchFronius "2024-01-01 12:00:00"
        (mkSiteInput [("P_PV", .jstr "oops"), ("P_Grid", .jnum 0),
                      ("P_Akku", .jnum 0), ("P_Load", .jnum 0)]) = none
    ∧ fetchFronius "2024-01-01 12:00:00"
        (mkSiteInput [("P_Grid", .jnum 100), ("P_Akku", .jnum 0),
                      ("P_Load", .jnum 200)])
      = some ⟨"2024-01-01 12:00:00", 0, 1/10, 0, 1/5, none⟩ := by
  constructor
  · simp +decide [fetchFronius, mkSiteInput, assoc, sitePower, dictGet, orZero,
      falsy, divAbs1000, combinePowers, socOf, socRaw, firstVal, floatCast]
  · simp +decide [fetchFronius, mkSiteInput, assoc, sitePower, dictGet, orZero,
      falsy, divAbs1000, combinePowers, socOf, socRaw, firstVal, floatCast]
    norm_num

/-- C1 amended: for every site object and every one of the four power fields
(`name` ranges over any key, covering P_PV, P_Grid, P_Akku and P_Load
uniformly): a field that is absent, JSON-null, or an empty string computes to
`0.0`, not null (first conjunct); a non-empty string field makes the field
computation raise (second conjunct).  When all four field computations
succeed with values `pv, gr, ak, lo`, the fetch returns the Reading with
exactly those kW fields — never a null one (third conjunct); when any of the
four raises, the whole fetch returns `None` (fourth conjunct).  Only `soc`
is nullable in the Reading. -/
theorem fronius_power_fields (now : String) (sf : List (String × JVal)) :
    (∀ name : String,
      (assoc sf name = none ∨ assoc sf name = some .jnull
        ∨ assoc sf name = some (.jstr "")) →
      sitePower sf name = some 0)
    ∧ (∀ (name : String) (s : String), s ≠ "" →
        assoc sf name = some (.jstr s) → sitePower sf name = none)
    ∧ (∀ pv gr ak lo : ℚ,
        sitePower sf "P_PV" = some pv → sitePower sf "P_Grid" = some gr →
        sitePower sf "P_Akku" = some ak → sitePower sf "P_Load" = some lo →
        fetchFronius now (mkSiteInput sf) = some ⟨now, pv, gr, ak, lo, none⟩)
    ∧ ((sitePower sf "P_PV" = none ∨ sitePower sf "P_Grid" = none
        ∨ sitePower sf "P_Akku" = none ∨ sitePower sf "P_Load" = none) →
      fetchFronius now (mkSiteInput sf) = none) := by
  refine ⟨?_, ?_, ?_, ?_⟩
  · intro name h
    rcases h with h | h | h
    · exact sitePower_missing sf name h
    · exact sitePower_null sf name h
    · exact sitePower_emptyStr sf name h
  · intro name s hs h
    exact sitePower_str sf name s hs h
  · intro pv gr ak lo hpv hgr hak hlo
    rw [fetchFronius_mkSiteInput, hpv, hgr, hak, hlo]
    rfl
  · intro h
    rw [fetchFronius_mkSiteInput]
    exact combinePowers_none now none _ _ _ _ h

/-- C1 witness: a site object with `P_PV` numeric, `P_Grid` an empty string,
`P_Akku` absent and `P_Load` numeric yields a Reading with `0.0` (not null)
for the grid and battery fields; a site object whose `P_Grid` is a non-empty
non-numeric string makes the whole fetch return `None`. -/
theorem fronius_power_fields_check :
    fetchFronius "2024-01-01 12:00:00"
        (mkSiteInput [("P_PV", .jnum 500), ("P_Grid", .jstr ""),
                      ("P_Load", .jnum 200)])
      = some ⟨"2024-01-01 12:00:00", |(500 : ℚ)|/1000, 0, 0,
              |(200 : ℚ)|/1000, none⟩
    ∧ fetchFronius "2024-01-01 12:00:00"
        (mkSiteInput [("P_Grid", .jstr "oops")]) = none := by
  have h1 := fronius_power_fields "2024-01-01 12:00:00"
      [("P_PV", .jnum 500), ("P_Grid", .jstr ""), ("P_Load", .jnum 200)]
  have h2 := fronius_power_fields "2024-01-01 12:00:00" [("P_Grid", .jstr "oops")]
  constructor
  · exact h1.2.2.1 (|(500 : ℚ)|/1000) 0 0 (|(200 : ℚ)|/1000)
      (sitePower_num [("P_PV", .jnum 500), ("P_Grid", .jstr ""),
        ("P_Load", .jnum 200)] "P_PV" 500 rfl)
      (h1.1 "P_Grid" (Or.inr (Or.inr rfl)))
      (h1.1 "P_Akku" (Or.inl rfl))
      (sitePower_num [("P_PV", .jnum 500), ("P_Grid", .jstr ""),
        ("P_Load", .jnum 200)] "P_Load" 200 rfl)
  · exact h2.2.2.2
      (Or.inr (Or.inl (h2.2.1 "P_Grid" "oops" (by decide) rfl)))

/-- C5: both adapters are total functions into `Option` in this embedding
(they cannot raise), and every failure path yields `none`: network error,
a structurally short heating body (fewer than 13 non-blank lines, at any
status), a non-JSON inverter body, and a non-success HTTP status; a `none`
fetch leaves the store untouched. -/
theorem adapters_fail_closed :
    (∀ now, fetchBmk now .netErr = none)
    ∧ (∀ now status text, (bmkValues text).length ≤ 12 →
        fetchBmk now (.resp status text) = none)
    ∧ (∀ now, fetchFronius now .netErr = none)
    ∧ (∀ now status, fetchFronius now (.resp status none) = none)
    ∧ (∀ now status text jsonBody, 400 ≤ status → status < 600 →
        fetchFronius now (.resp status jsonBody) = none
          ∧ fetchBmk now (.resp status text) = none)
    ∧ (∀ (t : List BmkRow) (fetched : Option BmkRow), fetched = none →
        cycleEffect BmkRow.ts t fetched = t) := by
  refine ⟨fun _ => rfl, ?_, fun _ => rfl, ?_, ?_, ?_⟩
  · intro now status text hlen
    simp only [fetchBmk]
    split
    · rfl
    · simp [hlen]
  · intro now status
    simp [fetchFronius]
  · intro now status text jsonBody h4 h6
    constructor
    · simp only [fetchFronius]
      rw [if_pos ⟨h4, h6⟩]
    · simp only [fetchBmk]
      rw [if_pos ⟨h4, h6⟩]
  · intro t fetched hf
    rw [hf]
    rfl

/-- C5 witness: a 10-line heating body is structurally rejected. -/
theorem adapters_fail_closed_check :
    (bmkValues "1\n2\n3\n4\n5\n6\n7\n8\n9\n10").length ≤ 12
    ∧ fetchBmk "2024-01-01 00:00:00"
        (.resp 200 "1\n2\n3\n4\n5\n6\n7\n8\n9\n10") = none :=
  ⟨by decide,
   adapters_fail_closed.2.1 "2024-01-01 00:00:00" 200
     "1\n2\n3\n4\n5\n6\n7\n8\n9\n10" (by decide)⟩

/-- C7: a successful heating response with exactly 13 non-blank lines whose
line 2 fails numeric parsing and whose other mapped lines parse yields a
Reading with `boiler_temp = none` and all other fields populated, and that
Reading is what gets upserted; `to_float` normalises a decimal comma before
parsing (the witness feeds comma-formatted lines through this theorem). -/
theorem bmk_partial_row (now : String) (status : ℕ) (text : String)
    (hst : status < 400)
    (hlen : (bmkValues text).length = 13)
    (hb : to_float ((bmkValues text).getD 1 "") = none)
    (o2 bt bm bb hw : ℚ)
    (h2 : to_float ((bmkValues text).getD 2 "") = some o2)
    (h4 : to_float ((bmkValues text).getD 4 "") = some bt)
    (h5 : to_float ((bmkValues text).getD 5 "") = some bm)
    (h6 : to_float ((bmkValues text).getD 6 "") = some bb)
    (h12 : to_float ((bmkValues text).getD 12 "") = some hw) :
    fetchBmk now (.resp status text)
      = some ⟨now, none, some o2, some bt, some bm, some bb, some hw⟩
    ∧ ∀ t : List BmkRow,
        cycleEffect BmkRow.ts t (fetchBmk now (.resp status text))
          = upsertRow BmkRow.ts t
              ⟨now, none, some o2, some bt, some bm, some bb, some hw⟩ := by
  have hmain : fetchBmk now (.resp status text)
      = some ⟨now, none, some o2, some bt, some bm, some bb, some hw⟩ := by
    simp only [fetchBmk]
    rw [if_neg (by omega)]
    have hgt : ¬ (bmkValues text).length ≤ 12 := by omega
    simp only [hgt, if_false]
    simp only [Option.some_inj, BmkRow.mk.injEq, true_and]
    exact ⟨by simpa using hb, by simpa using h2, by simpa using h4,
           by simpa using h5, by simpa using h6, by simpa using h12⟩
  refine ⟨hmain, fun t => ?_⟩
  rw [hmain]
  rfl

/-- C7 witness: 13 non-blank lines, line 2 non-numeric, two comma-formatted
values among the mapped lines. -/
theorem bmk_partial_row_check :
    fetchBmk "2024-01-01 00:00:00"
        (.resp 200 "1\nabc\n7.5\nx\n48,6\n45\n40\n0\n0\n0\n0\n0\n36,2")
      = some ⟨"2024-01-01 00:00:00", none, some (15/2), some (243/5),
              some 45, some 40, some (181/5)⟩ := by
  have h := bmk_partial_row "2024-01-01 00:00:00" 200
      "1\nabc\n7.5\nx\n48,6\n45\n40\n0\n0\n0\n0\n0\n36,2"
      (by decide) (by decide) (by decide)
      (15/2) (243/5) 45 40 (181/5)
      ?_ ?_ ?_ ?_ ?_
  · exact h.1
  · rw [show ((bmkValues "1\nabc\n7.5\nx\n48,6\n45\n40\n0\n0\n0\n0\n0\n36,2").getD
        2 "") = "7.5" from by decide]
    simp +decide [to_float, commaToDot, pyFloatCore, stripChars, pySpace,
      readSign, fracVal, digitsToNat, digitVal, isDigit]
    norm_num
  · rw [show ((bmkValues "1\nabc\n7.5\nx\n48,6\n45\n40\n0\n0\n0\n0\n0\n36,2").getD
        4 "") = "48,6" from by decide]
    simp +decide [to_float, commaToDot, pyFloatCore, stripChars, pySpace,
      readSign, fracVal, digitsToNat, digitVal, isDigit]
    norm_num
  · rw [show ((bmkValues "1\nabc\n7.5\nx\n48,6\n45\n40\n0\n0\n0\n0\n0\n36,2").getD
        5 "") = "45" from by decide]
    simp +decide [to_float, commaToDot, pyFloatCore, stripChars, pySpace,
      readSign, fracVal, digitsToNat, digitVal, isDigit]
  · rw [show ((bmkValues "1\nabc\n7.5\nx\n48,6\n45\n40\n0\n0\n0\n0\n0\n36,2").getD
        6 "") = "40" from by decide]
    simp +decide [to_float, commaToDot, pyFloatCore, stripChars, pySpace,
      readSign, fracVal, digitsToNat, digitVal, isDigit]
  · rw [show ((bmkValues "1\nabc\n7.5\nx\n48,6\n45\n40\n0\n0\n0\n0\n0\n36,2").getD
        12 "") = "36,2" from by decide]
    simp +decide [to_float, commaToDot, pyFloatCore, stripChars, pySpace,
      readSign, fracVal, digitsToNat, digitVal, isDigit]
    norm_num

/-- C8: the spec's end-to-end scenario: `P_PV=1500, P_Grid=-300, P_Akku=0,
P_Load=1200`, inverter 1 with `SOC="87.5"` produce exactly
`pv_kw=1.5, grid_kw=0.3, battery_kw=0.0, load_kw=1.2, soc=87.5`, and
upserting the Reading into an empty table stores exactly that row. -/
theorem fronius_end_to_end :
    fetchFronius "2024-01-01 12:00:00"
        (mkSiteInvInput
          [("P_PV", .jnum 1500), ("P_Grid", .jnum (-300)),
           ("P_Akku", .jnum 0), ("P_Load", .jnum 1200)] (.jstr "87.5"))
      = some ⟨"2024-01-01 12:00:00", 3/2, 3/10, 0, 6/5, some (175/2)⟩
    ∧ upsertRow FroniusRow.ts []
        ⟨"2024-01-01 12:00:00", 3/2, 3/10, 0, 6/5, some (175/2)⟩
      = [⟨"2024-01-01 12:00:00", 3/2, 3/10, 0, 6/5, some (175/2)⟩] := by
  constructor
  · have hsoc : socOf (.jobj [("1", .jobj [("SOC", .jstr "87.5")])])
        = some (175/2) := by
      simp +decide [socOf, socRaw, assoc, falsy, firstVal, floatCast, pyFloat,
        pyFloatCore, stripChars, pySpace, readSign, fracVal, digitsToNat,
        digitVal, isDigit]
      norm_num
    rw [fetchFronius_mkSiteInvInput, hsoc,
        sitePower_num [("P_PV", .jnum 1500), ("P_Grid", .jnum (-300)),
          ("P_Akku", .jnum 0), ("P_Load", .jnum 1200)] "P_PV" 1500 rfl,
        sitePower_num [("P_PV", .jnum 1500), ("P_Grid", .jnum (-300)),
          ("P_Akku", .jnum 0), ("P_Load", .jnum 1200)] "P_Grid" (-300) rfl,
        sitePower_num [("P_PV", .jnum 1500), ("P_Grid", .jnum (-300)),
          ("P_Akku", .jnum 0), ("P_Load", .jnum 1200)] "P_Akku" 0 rfl,
        sitePower_num [("P_PV", .jnum 1500), ("P_Grid", .jnum (-300)),
          ("P_Akku", .jnum 0), ("P_Load", .jnum 1200)] "P_Load" 1200 rfl]
    simp only [combinePowers, Option.some_inj, FroniusRow.mk.injEq]
    norm_num
  · rfl

/-- C10: every Reading the inverter fetch returns has all four power fields
present and non-negative (they are plain rationals in the row type, as the
code always builds them from `abs(… / 1000)`), and an absent or JSON-null
upstream power field ends up as `0.0`, not null; only `soc` is an optional
field. -/
theorem fronius_powers_nonneg :
    (∀ now i row, fetchFronius now i = some row →
      0 ≤ row.pv_kw ∧ 0 ≤ row.grid_kw ∧ 0 ≤ row.battery_kw ∧ 0 ≤ row.load_kw)
    ∧ (∀ now sf row,
        (assoc sf "P_PV" = none ∨ assoc sf "P_PV" = some .jnull) →
        fetchFronius now (mkSiteInput sf) = some row → row.pv_kw = 0) := by
  constructor
  · intro now i row h
    cases i with
    | netErr => exact absurd h (by simp [fetchFronius])
    | resp status json =>
      unfold fetchFronius at h
      repeat' split at h
      all_goals try exact Option.noConfusion h
      obtain ⟨a, b, c, d, hpv, hgr, hba, hlo, hrow⟩ :=
        combinePowers_eq_some _ _ _ _ _ _ row h
      subst hrow
      exact ⟨sitePower_nonneg _ _ _ hpv, sitePower_nonneg _ _ _ hgr,
             sitePower_nonneg _ _ _ hba, sitePower_nonneg _ _ _ hlo⟩
  · intro now sf row hpv h
    have h0 : sitePower sf "P_PV" = some 0 :=
      hpv.elim (sitePower_missing sf _) (sitePower_null sf _)
    rw [fetchFronius_mkSiteInput, h0] at h
    obtain ⟨a, b, c, d, hpv2, hgr, hba, hlo, hrow⟩ :=
      combinePowers_eq_some _ _ _ _ _ _ row h
    obtain rfl : (0 : ℚ) = a := by injection hpv2
    subst hrow
    rfl

/-- C10 witness: a site object with `P_PV` absent yields a Reading with all
four power fields non-negative and `pv_kw = 0`. -/
theorem fronius_powers_nonneg_check :
    (0 ≤ FroniusRow.pv_kw ⟨"t", 0, |(100 : ℚ)|/1000, |(0 : ℚ)|/1000,
          |(200 : ℚ)|/1000, none⟩
      ∧ 0 ≤ FroniusRow.grid_kw ⟨"t", 0, |(100 : ℚ)|/1000, |(0 : ℚ)|/1000,
          |(200 : ℚ)|/1000, none⟩
      ∧ 0 ≤ FroniusRow.battery_kw ⟨"t", 0, |(100 : ℚ)|/1000, |(0 : ℚ)|/1000,
          |(200 : ℚ)|/1000, none⟩
      ∧ 0 ≤ FroniusRow.load_kw ⟨"t", 0, |(100 : ℚ)|/1000, |(0 : ℚ)|/1000,
          |(200 : ℚ)|/1000, none⟩)
    ∧ FroniusRow.pv_kw ⟨"t", 0, |(100 : ℚ)|/1000, |(0 : ℚ)|/1000,
          |(200 : ℚ)|/1000, none⟩ = 0 := by
  have hf : fetchFronius "t"
      (mkSiteInput [("P_Grid", .jnum 100), ("P_Akku", .jnum 0),
                    ("P_Load", .jnum 200)])
      = some ⟨"t", 0, |(100 : ℚ)|/1000, |(0 : ℚ)|/1000,
              |(200 : ℚ)|/1000, none⟩ := by
    rw [fetchFronius_mkSiteInput,
        sitePower_missing [("P_Grid", .jnum 100), ("P_Akku", .jnum 0),
          ("P_Load", .jnum 200)] "P_PV" rfl,
        sitePower_num [("P_Grid", .jnum 100), ("P_Akku", .jnum 0),
          ("P_Load", .jnum 200)] "P_Grid" 100 rfl,
        sitePower_num [("P_Grid", .jnum 100), ("P_Akku", .jnum 0),
          ("P_Load", .jnum 200)] "P_Akku" 0 rfl,
        sitePower_num [("P_Grid", .jnum 100), ("P_Akku", .jnum 0),
          ("P_Load", .jnum 200)] "P_Load" 200 rfl]
    rfl
  exact ⟨fronius_powers_nonneg.1 "t" _ _ hf,
         fronius_powers_nonneg.2 "t"
           [("P_Grid", .jnum 100), ("P_Akku", .jnum 0), ("P_Load", .jnum 200)]
           _ (Or.inl rfl) hf⟩
